import Mathlib

/-!
# Verification of the question-guide chat client

Shallow embedding of the core logic of the repository:

* `src/src/services/openai.ts` — `sendMessageStream` (final revision, lines
  641-792): the SSE stream decoder (line buffering, `data: ` records,
  `[DONE]` marker) and the tool-call accumulator keyed by fragment index.
* `src/src/components/ChatInterface.tsx` — `handleToolExecutionComplete`
  (lines 414-603): the bounded poll-wait for tool results and the
  construction of the assistant tool-call message plus one tool-result
  message per executed call.
* `src/src/services/mcpClient.ts` — `initialize` / `startSSEConnection`
  (both revisions present in the file: lines 69-153 and lines 396-470).
* `src/src/services/threadManager.ts` — `updateThread` and
  `addMessageToThread` (lines 60-91).

Host primitives are modelled explicitly: `JSON.parse` of a stream record
becomes an abstract `parse : List Char → Option ParsedRecord` parameter
(`none` = the parse threw), `Date.now()` becomes a `now : Nat` parameter,
and an opaque JavaScript value is modelled by its truthiness together with
its `JSON.stringify` image.  Transport chunks are modelled as `List Char`
(the source's `TextDecoder` with `stream: true` already reassembles split
UTF-8 code points, so character granularity is the faithful level).
-/

/-! ## Stream decoder data model (openai.ts, lines 493-534 and 641-792) -/

/-- One element of `delta.tool_calls` in a decoded stream record:
`{index, id?, function: {name?, arguments?}}`.  `none` models an absent
(JavaScript `undefined`) field. -/
structure DeltaToolCall where
  index : Option Nat
  id : Option String
  name : Option String
  arguments : Option String
deriving Repr, DecidableEq

/-- The fields of a successfully `JSON.parse`d `data:` payload that
`sendMessageStream` reads: `choices[0].delta.content`,
`choices[0].delta.tool_calls` and `choices[0].finish_reason`
(openai.ts lines 726-728).  A record whose JSON decodes but carries none of
them is all-`none`. -/
structure ParsedRecord where
  content : Option String
  toolCallDeltas : Option (List DeltaToolCall)
  finishReason : Option String
deriving Repr, DecidableEq

/-- A finalized tool call (openai.ts `ToolCall`, lines 502-509; the constant
`type: 'function'` field is omitted). -/
structure ToolCall where
  id : String
  name : String
  arguments : String
deriving Repr, DecidableEq

/-- The events `sendMessageStream` delivers through its callbacks:
`onChunk`, `onToolCall`, `onComplete` and `onError`.  Line decoding never
produces `error`: `onError` fires only from the outer transport `catch`
(openai.ts lines 789-791). -/
inductive SEvent where
  | content (s : String)
  | toolCall (tc : ToolCall)
  | complete
  | error (msg : String)
deriving Repr, DecidableEq

/-- One mutable record of `accumulatingToolCalls : Map<number, Partial<ToolCall>>`
(openai.ts line 651), keyed by `idx`.  The association list keeps JavaScript
`Map` insertion order. -/
structure AccEntry where
  idx : Nat
  id : Option String
  name : String
  args : String
deriving Repr, DecidableEq

/-- `const index = toolCallDelta.index || 0` (openai.ts line 737):
an absent index — and the falsy index `0` — both select slot `0`. -/
def effIndex (d : DeltaToolCall) : Nat := d.index.getD 0

/-- The mutation block of the accumulator (openai.ts lines 751-759):
overwrite `name` when the fragment supplies a truthy (non-empty) one,
append a truthy `arguments` fragment to the accumulated string. -/
def updEntry (e : AccEntry) (d : DeltaToolCall) : AccEntry :=
  { e with
    name := match d.name with
      | some n => if n = "" then e.name else n
      | none => e.name
    args := match d.arguments with
      | some a => if a = "" then e.args else e.args ++ a
      | none => e.args }

/-- One iteration of the `for (const toolCallDelta of delta.tool_calls)` loop
(openai.ts lines 736-760): create the slot on first sight of an index (with
the fragment's `id` and empty name/arguments), then apply the mutation
block. -/
def applyDelta (acc : List AccEntry) (d : DeltaToolCall) : List AccEntry :=
  let i := effIndex d
  if acc.any (fun e => e.idx == i) then
    acc.map (fun e => if e.idx == i then updEntry e d else e)
  else
    acc ++ [updEntry { idx := i, id := d.id, name := "", args := "" } d]

/-- The generated fallback id `` `tool-${Date.now()}-${index}` ``
(openai.ts line 768), with `Date.now()` passed in as `now`. -/
def genToolId (now idx : Nat) : String :=
  "tool-" ++ toString now ++ "-" ++ toString idx

/-- Finalization on `finish_reason === 'tool_calls'` (openai.ts lines
765-780): iterate the accumulator in insertion order, keep only entries with
a truthy name and truthy arguments, and freeze each survivor into a
`ToolCall`, generating an id when the accumulated one is falsy. -/
def finalizeCalls (now : Nat) (acc : List AccEntry) : List ToolCall :=
  (acc.filter (fun e => e.name != "" && e.args != "")).map (fun e =>
    { id := match e.id with
        | some i => if i = "" then genToolId now e.idx else i
        | none => genToolId now e.idx
      name := e.name
      arguments := e.args })

/-- Processing of one successfully parsed record (openai.ts lines 726-781):
emit the content fragment if truthy, fold the tool-call deltas into the
accumulator, and on a `tool_calls` finish reason emit every finalized call. -/
def processParsed (now : Nat) (acc : List AccEntry) (p : ParsedRecord) :
    List AccEntry × List SEvent :=
  let contentEvs : List SEvent :=
    match p.content with
    | some c => if c = "" then [] else [SEvent.content c]
    | none => []
  let acc' : List AccEntry :=
    match p.toolCallDeltas with
    | some ds => ds.foldl applyDelta acc
    | none => acc
  let callEvs : List SEvent :=
    if p.finishReason = some "tool_calls" then
      (finalizeCalls now acc').map SEvent.toolCall
    else []
  (acc', contentEvs ++ callEvs)

/-- Decoder state while walking the lines of one (or several) chunks:
`finished` is set when the `[DONE]` marker made the source `return`. -/
structure LineState where
  finished : Bool
  acc : List AccEntry
deriving Repr, DecidableEq

/-- Processing of one complete line (openai.ts lines 716-786): only
`data: `-prefixed lines matter; the payload is the line minus the 6-character
tag, trimmed; `[DONE]` fires `onComplete` and stops the stream; a payload
whose parse throws is dropped silently; otherwise the parsed record is
processed.  A finished state ignores everything (the source returned). -/
def dataTag : List Char := "data: ".data

def doneTag : List Char := "[DONE]".data

/-- `String.prototype.trim`: strip whitespace from both ends. -/
def trimChars (cs : List Char) : List Char :=
  ((cs.dropWhile Char.isWhitespace).reverse.dropWhile Char.isWhitespace).reverse

def processLine (parse : List Char → Option ParsedRecord) (now : Nat)
    (st : LineState) (line : List Char) : LineState × List SEvent :=
  if st.finished then (st, [])
  else if dataTag.isPrefixOf line then
    let data := trimChars (line.drop 6)
    if data = doneTag then ({ st with finished := true }, [SEvent.complete])
    else
      match parse data with
      | none => (st, [])
      | some p =>
          let r := processParsed now st.acc p
          ({ st with acc := r.1 }, r.2)
  else (st, [])

/-- The `for (const line of lines)` loop (openai.ts line 716), collecting the
emitted events in order. -/
def processLines (parse : List Char → Option ParsedRecord) (now : Nat)
    (st : LineState) : List (List Char) → LineState × List SEvent
  | [] => (st, [])
  | l :: ls =>
      let r1 := processLine parse now st l
      let r2 := processLines parse now r1.1 ls
      (r2.1, r1.2 ++ r2.2)

/-- Push a character onto the front of the first complete line, or onto the
leftover when no complete line exists. Helper for `splitNl`. -/
def consHead (c : Char) : List (List Char) × List Char → List (List Char) × List Char
  | ([], r) => ([], c :: r)
  | (l :: ls, r) => ((c :: l) :: ls, r)

/-- `buffer.split('\n')` followed by `buffer = lines.pop()` (openai.ts lines
713-714): the complete (newline-terminated) lines in order, paired with the
trailing partial line that stays in the buffer. -/
def splitNl : List Char → List (List Char) × List Char
  | [] => ([], [])
  | c :: cs =>
      if c = '\n' then ([] :: (splitNl cs).1, (splitNl cs).2)
      else consHead c (splitNl cs)

/-- Full decoder state across chunks: the line buffer plus the line-level
state. -/
structure DecState where
  finished : Bool
  buffer : List Char
  acc : List AccEntry
deriving Repr, DecidableEq

def initDecState : DecState := { finished := false, buffer := [], acc := [] }

/-- One iteration of the read loop (openai.ts lines 704-788): append the
chunk to the buffer, split off the complete lines, process them, and keep the
trailing partial line.  Once `[DONE]` has been seen the source has returned,
so further chunks are never read; the dead buffer is normalized to `[]`. -/
def runChunk (parse : List Char → Option ParsedRecord) (now : Nat)
    (st : DecState) (chunk : List Char) : DecState × List SEvent :=
  if st.finished then (st, [])
  else
    let sp := splitNl (st.buffer ++ chunk)
    let r := processLines parse now { finished := false, acc := st.acc } sp.1
    if r.1.finished then ({ finished := true, buffer := [], acc := r.1.acc }, r.2)
    else ({ finished := false, buffer := sp.2, acc := r.1.acc }, r.2)

/-- Feed the chunks in order, concatenating the emitted events. -/
def runChunks (parse : List Char → Option ParsedRecord) (now : Nat)
    (st : DecState) : List (List Char) → DecState × List SEvent
  | [] => (st, [])
  | c :: cs =>
      let r1 := runChunk parse now st c
      let r2 := runChunks parse now r1.1 cs
      (r2.1, r1.2 ++ r2.2)

/-- The observable event sequence of one streaming call: feed every chunk,
then — matching the `done` branch of the read loop (openai.ts lines 707-710)
— fire `onComplete` if the stream did not already end via `[DONE]`. -/
def decodeStream (parse : List Char → Option ParsedRecord) (now : Nat)
    (chunks : List (List Char)) : List SEvent :=
  let r := runChunks parse now initDecState chunks
  r.2 ++ (if r.1.finished then [] else [SEvent.complete])

/-- The event sequence produced by a given list of complete records (lines),
with the end-of-stream completion appended. -/
def decodeLines (parse : List Char → Option ParsedRecord) (now : Nat)
    (ls : List (List Char)) : List SEvent :=
  let r := processLines parse now { finished := false, acc := [] } ls
  r.2 ++ (if r.1.finished then [] else [SEvent.complete])

/-- The character stream that carries the given records, one per
newline-terminated transport line. -/
def encodeLines (ls : List (List Char)) : List Char :=
  (ls.map (fun l => l ++ ['\n'])).flatten

/-! ## Orchestrator data model (ChatInterface.tsx, lines 180-603) -/

/-- An opaque JavaScript value, characterized by the two things the
orchestrator observes about it: its truthiness and its `JSON.stringify`
image. -/
structure JSValue where
  truthy : Bool
  serialized : String
deriving Repr, DecidableEq

/-- One entry of the `executedTools` array (ChatInterface.tsx lines 358-363):
the tool call pushed when `onToolCall` fired, and the `result`/`error` slots
filled in (or left `null`) by the time the continuation is built. -/
structure ExecutedTool where
  toolCall : ToolCall
  result : Option JSValue
  error : Option String
deriving Repr, DecidableEq

/-- Message roles (openai.ts line 495). -/
inductive Role where
  | user
  | assistant
  | system
  | tool
deriving Repr, DecidableEq

/-- `ChatMessage` (openai.ts lines 493-500), with `Date` modelled as `Nat`. -/
structure ChatMessage where
  id : String
  role : Role
  content : String
  timestamp : Nat
  toolCalls : Option (List ToolCall)
  toolCallId : Option String
deriving Repr, DecidableEq

/-- Truthiness of the `error` slot (`tool.error ?`): present and non-empty. -/
def errTruthy : Option String → Bool
  | some s => s != ""
  | none => false

/-- `tool.result ? JSON.stringify(tool.result) : 'No result available'`
(ChatInterface.tsx line 480). -/
def resultContent : Option JSValue → String
  | some v => if v.truthy then v.serialized else "No result available"
  | none => "No result available"

/-- The content of one tool-result message (ChatInterface.tsx lines 478-480). -/
def toolMessageContent (t : ExecutedTool) : String :=
  if errTruthy t.error then
    "Error executing " ++ t.toolCall.name ++ ": " ++ t.error.getD ""
  else resultContent t.result

/-- The assistant message carrying the finalized tool calls
(ChatInterface.tsx lines 463-469): empty content, `toolCalls` set. -/
def assistantToolCallMessage (aiMessageId : String) (now : Nat)
    (executedTools : List ExecutedTool) : ChatMessage :=
  { id := aiMessageId
    role := Role.assistant
    content := ""
    timestamp := now
    toolCalls := some (executedTools.map (·.toolCall))
    toolCallId := none }

/-- The tool-result messages, one per executed call in call order
(ChatInterface.tsx lines 477-495): role `tool`, formatted content, id
`` `tool-${Date.now()}-${index}` ``, `toolCallId` from the matching call. -/
def toolResultMessages (now : Nat) (executedTools : List ExecutedTool) :
    List ChatMessage :=
  executedTools.enum.map (fun p =>
    { id := "tool-" ++ toString now ++ "-" ++ toString p.1
      role := Role.tool
      content := toolMessageContent p.2
      timestamp := now
      toolCalls := none
      toolCallId := some p.2.toolCall.id })

/-- `maxAttempts = 50` (ChatInterface.tsx line 447). -/
def maxAttempts : Nat := 50

/-- The 100ms poll interval (ChatInterface.tsx line 450). -/
def pollIntervalMs : Nat := 100

/-- The poll loop of `waitForToolResults` (ChatInterface.tsx lines 445-457):
re-check completion before every 100ms sleep, give up once `attempts`
reaches the ceiling, and return the number of polls performed.  `complete t`
is the value `checkAllToolsComplete()` would report at poll `t`. -/
def waitForToolResults (complete : Nat → Bool) : Nat → Nat → Nat
  | 0, attempts => attempts
  | fuel + 1, attempts =>
      if complete attempts then attempts
      else waitForToolResults complete fuel (attempts + 1)

/-- The outcome of one tool round: the messages appended to the thread (the
assistant tool-call message followed by the tool-result messages, in that
order), the message list of the continuation completion request, and the
number of polls the bounded wait performed. -/
structure ContinuationRound where
  appended : List ChatMessage
  request : List ChatMessage
  waitAttempts : Nat
deriving Repr, DecidableEq

/-- `handleToolExecutionComplete` (ChatInterface.tsx lines 414-528), up to
the point where the continuation request is issued: bail out when no tool
was recorded, otherwise run the bounded wait, append the assistant tool-call
message and one tool-result message per call to the thread, and issue the
continuation with `[...originalMessages, assistantMessage, ...toolMessages]`.
`executedTools` is the settled snapshot of the array at continuation time;
`complete` abstracts the concurrently-mutated completion check. -/
def handleToolExecutionComplete (originalMessages : List ChatMessage)
    (executedTools : List ExecutedTool) (aiMessageId : String)
    (complete : Nat → Bool) (now : Nat) : Option ContinuationRound :=
  if executedTools.length = 0 then none
  else
    let attempts := waitForToolResults complete maxAttempts 0
    let assistantMessage := assistantToolCallMessage aiMessageId now executedTools
    let toolMessages := toolResultMessages now executedTools
    some { appended := assistantMessage :: toolMessages
           request := originalMessages ++ assistantMessage :: toolMessages
           waitAttempts := attempts }

/-! ## MCP session client (mcpClient.ts, both revisions) -/

/-- `serverInfo` of an initialize result (mcpClient.ts lines 374-377). -/
structure ServerInfo where
  name : String
  version : String
deriving Repr, DecidableEq

/-- The fields of `response.result` that `initialize` reads; the
capabilities object is kept as its serialized image. -/
structure InitResult where
  protocolVersion : Option String
  capabilities : Option String
  serverInfo : Option ServerInfo
deriving Repr, DecidableEq

/-- The two response headers `initialize` reads; `none` models
`response.headers.get(...)` returning `null`. -/
structure InitHeaders where
  mcpSessionId : Option String
  mcpProtocolVersion : Option String
deriving Repr, DecidableEq

/-- The value `makeRequest('initialize', ...)` resolves to (mcpClient.ts
lines 604-610): the JSON-RPC `result` plus the captured headers. -/
structure InitResponse where
  result : Option InitResult
  headers : Option InitHeaders
deriving Repr, DecidableEq

/-- `MCPSession` (mcpClient.ts lines 366-378). -/
structure MCPSession where
  sessionId : String
  protocolVersion : String
  capabilities : String
  serverInfo : ServerInfo
deriving Repr, DecidableEq

/-- Truthiness of an optional string: present and non-empty. -/
def strTruthy : Option String → Bool
  | some s => s != ""
  | none => false

/-- The handshake stage of the later `initialize` revision (mcpClient.ts
lines 396-426): reject a response without a `result`; read the session id
and protocol version from the response headers only; a falsy value for
either is a hard failure thrown *before* `this.session` is assigned, so the
stored session (`session0`) is left untouched. -/
def initializeHandshake (session0 : Option MCPSession) (resp : InitResponse) :
    Option MCPSession × Except String MCPSession :=
  match resp.result with
  | none => (session0, Except.error "Initialize failed: No result in response")
  | some r =>
      let sessionId := resp.headers.bind (·.mcpSessionId)
      let protocolVersion := resp.headers.bind (·.mcpProtocolVersion)
      if strTruthy sessionId && strTruthy protocolVersion then
        let s : MCPSession :=
          { sessionId := sessionId.getD ""
            protocolVersion := protocolVersion.getD ""
            capabilities := r.capabilities.getD "\x7b\x7d"
            serverInfo := r.serverInfo.getD { name := "Unknown", version := "1.0.0" } }
        (some s, Except.ok s)
      else (session0, Except.error "Initialize failed: Missing session headers")

/-- `isConnected` (mcpClient.ts lines 325-327 / 622-624): a session is
stored and the SSE connection is open. -/
def isConnected (session : Option MCPSession) (sseOpen : Bool) : Bool :=
  session.isSome && sseOpen

/-- How the attempt to open the notification channel can end. -/
inductive SSEOutcome where
  | opened
  | errored
  | timedOut
  | threw
deriving Repr, DecidableEq

/-- `startSSEConnection`, first revision (mcpClient.ts lines 106-153): the
promise resolves on `onopen`, resolves anyway on the 3s timeout or 1s after
an error event, and a constructor exception is swallowed by the `catch` —
the function never rejects once a session exists.  The returned `Bool` is
whether the channel actually opened (so notifications can arrive). -/
def startSSEConnectionRev0 (session : Option MCPSession) (outcome : SSEOutcome) :
    Except String Bool :=
  match session with
  | none => Except.error "Session not initialized"
  | some _ =>
      match outcome with
      | SSEOutcome.opened => Except.ok true
      | SSEOutcome.errored => Except.ok false
      | SSEOutcome.timedOut => Except.ok false
      | SSEOutcome.threw => Except.ok false

/-- `startSSEConnection`, second revision (mcpClient.ts lines 437-470): the
promise only resolves on `onopen` and rejects after the 5s timeout; a
constructor exception propagates uncaught. -/
def startSSEConnectionRev1 (session : Option MCPSession) (outcome : SSEOutcome) :
    Except String Bool :=
  match session with
  | none => Except.error "Session not initialized"
  | some _ =>
      match outcome with
      | SSEOutcome.opened => Except.ok true
      | SSEOutcome.errored => Except.error "SSE connection timeout"
      | SSEOutcome.timedOut => Except.error "SSE connection timeout"
      | SSEOutcome.threw => Except.error "SSE connection failed"

/-- A tool definition from `tools/list` (mcpClient.ts lines 333-341), with
the input schema kept serialized. -/
structure MCPToolDef where
  name : String
  description : String
  inputSchema : String
deriving Repr, DecidableEq

/-- The mutable fields of `MCPClient` that `initialize` touches. -/
structure ClientState where
  session : Option MCPSession
  sseOpen : Bool
  tools : List MCPToolDef
deriving Repr, DecidableEq

/-- `initialize`, first revision (mcpClient.ts lines 69-104): a missing
session header is defaulted to a generated id (`genSessionId` stands for
`` `session-${Date.now()}-${random}` ``), a missing protocol-version header
falls back to `response.result.protocolVersion` and then to `'2024-11-05'`;
the session is stored, the SSE connection is attempted (never fatal in this
revision), then `tools/list` runs (`toolsResp` is its outcome: the request
may throw, and a missing `result.tools` defaults to `[]`). -/
def initializeRev0 (resp : InitResponse) (genSessionId : String)
    (sse : SSEOutcome) (toolsResp : Except String (Option (List MCPToolDef))) :
    ClientState × Except String MCPSession :=
  match resp.result with
  | none =>
      (⟨none, false, []⟩, Except.error "Initialize failed: No result in response")
  | some r =>
      let sessionId := match resp.headers.bind (·.mcpSessionId) with
        | some s => if s = "" then genSessionId else s
        | none => genSessionId
      let resultVersion := match r.protocolVersion with
        | some p => if p = "" then "2024-11-05" else p
        | none => "2024-11-05"
      let protocolVersion := match resp.headers.bind (·.mcpProtocolVersion) with
        | some s => if s = "" then resultVersion else s
        | none => resultVersion
      let s : MCPSession :=
        { sessionId := sessionId
          protocolVersion := protocolVersion
          capabilities := r.capabilities.getD "\x7b\x7d"
          serverInfo := r.serverInfo.getD { name := "Unknown", version := "1.0.0" } }
      match startSSEConnectionRev0 (some s) sse with
      | Except.error e => (⟨some s, false, []⟩, Except.error e)
      | Except.ok chOpen =>
          match toolsResp with
          | Except.error e => (⟨some s, chOpen, []⟩, Except.error e)
          | Except.ok tr => (⟨some s, chOpen, tr.getD []⟩, Except.ok s)

/-- `handleNotification` (mcpClient.ts lines 155-169): look up the progress
callback registered for the notification's token; the result is the token of
the callback invoked, `none` when no callback fires. -/
def handleNotification (callbacks : List (String × String))
    (progressToken : String) : Option String :=
  match callbacks.find? (fun p => p.1 == progressToken) with
  | some p => some p.2
  | none => none

/-- A progress notification reaches `handleNotification` only through the
SSE channel's `jsonrpc` listener, so nothing is dispatched unless the
channel actually opened. -/
def deliverNotification (st : ClientState) (callbacks : List (String × String))
    (progressToken : String) : Option String :=
  if st.sseOpen then handleNotification callbacks progressToken else none

/-- The headers `makeRequest` attaches to every request (mcpClient.ts lines
548-560): content negotiation, the session correlation headers when a
session is stored, and the bearer credential when an API key is configured. -/
def requestHeaders (session : Option MCPSession) (apiKey : Option String) :
    List (String × String) :=
  [("Content-Type", "application/json"),
   ("Accept", "application/json, text/event-stream")]
  ++ (match session with
      | some s =>
          [("Mcp-Session-Id", s.sessionId),
           ("MCP-Protocol-Version", s.protocolVersion)]
      | none => [])
  ++ (match apiKey with
      | some k => if k = "" then [] else [("Authorization", "Bearer " ++ k)]
      | none => [])

/-! ## Thread manager (threadManager.ts) -/

/-- `ChatThread` (openai.ts lines 519-525). -/
structure ChatThread where
  id : String
  name : String
  messages : List ChatMessage
  createdAt : Nat
  updatedAt : Nat
deriving Repr, DecidableEq

/-- `ChatSection` (openai.ts line 535). -/
inductive ChatSection where
  | steam
  | source2
deriving Repr, DecidableEq

/-- The persisted store: `Record<ChatSection, ChatThread[]>`. -/
structure ThreadStore where
  steam : List ChatThread
  source2 : List ChatThread
deriving Repr, DecidableEq

def getSection (store : ThreadStore) : ChatSection → List ChatThread
  | ChatSection.steam => store.steam
  | ChatSection.source2 => store.source2

def setSection (store : ThreadStore) (sec : ChatSection) (ts : List ChatThread) :
    ThreadStore :=
  match sec with
  | ChatSection.steam => { store with steam := ts }
  | ChatSection.source2 => { store with source2 := ts }

/-- `Partial<ChatThread>` as accepted by `updateThread`. -/
structure ThreadPatch where
  id : Option String
  name : Option String
  messages : Option (List ChatMessage)
  createdAt : Option Nat
  updatedAt : Option Nat
deriving Repr, DecidableEq

/-- `{...thread, ...updates, updatedAt: new Date()}` (threadManager.ts lines
66-70). -/
def applyPatch (t : ChatThread) (p : ThreadPatch) (now : Nat) : ChatThread :=
  { id := p.id.getD t.id
    name := p.name.getD t.name
    messages := p.messages.getD t.messages
    createdAt := p.createdAt.getD t.createdAt
    updatedAt := now }

/-- Replace the first list element matching `p` (the slot `findIndex`
selects); `none` when `findIndex` returned `-1`. -/
def updateFirst (p : α → Bool) (f : α → α) : List α → Option (List α)
  | [] => none
  | x :: xs => if p x then some (f x :: xs) else (updateFirst p f xs).map (x :: ·)

/-- `ThreadManager.updateThread` (threadManager.ts lines 60-73) acting on the
persisted store: patch the first thread of the section whose id matches,
write back only when the index search succeeded.  The `Bool` reports whether
`saveAllThreads` ran. -/
def updateThread (store : ThreadStore) (sec : ChatSection) (threadId : String)
    (updates : ThreadPatch) (now : Nat) : ThreadStore × Bool :=
  match updateFirst (fun t => t.id == threadId) (fun t => applyPatch t updates now)
      (getSection store sec) with
  | none => (store, false)
  | some ts => (setSection store sec ts, true)

/-- `ThreadManager.addMessageToThread` (threadManager.ts lines 81-91) acting
on the persisted store: push the message onto the matching thread and bump
`updatedAt`, writing back only when the index search succeeded. -/
def addMessageToThread (store : ThreadStore) (sec : ChatSection)
    (threadId : String) (message : ChatMessage) (now : Nat) : ThreadStore × Bool :=
  match updateFirst (fun t => t.id == threadId)
      (fun t => { t with messages := t.messages ++ [message], updatedAt := now })
      (getSection store sec) with
  | none => (store, false)
  | some ts => (setSection store sec ts, true)

/-! ## Line-splitting lemmas -/

/-- The leftover of a split never contains a newline. -/
theorem splitNl_no_newline_leftover (cs : List Char) : '\n' ∉ (splitNl cs).2 := by
  induction cs with
  | nil => simp [splitNl]
  | cons c cs ih =>
    by_cases hc : c = '\n'
    · simpa [splitNl, hc] using ih
    · rcases h : splitNl cs with ⟨ls, r⟩
      rw [h] at ih
      cases ls with
      | nil =>
          simp only [splitNl, if_neg hc, h, consHead, List.mem_cons]
          rintro (h1 | h1)
          · exact hc h1.symm
          · exact ih h1
      | cons l ls =>
          simpa only [splitNl, if_neg hc, h, consHead] using ih

/-- A newline-free text is all leftover. -/
theorem splitNl_of_no_newline (cs : List Char) (h : '\n' ∉ cs) :
    splitNl cs = ([], cs) := by
  induction cs with
  | nil => rfl
  | cons c cs ih =>
    have hc : c ≠ '\n' := fun e => h (by simp [e])
    have h2 : '\n' ∉ cs := fun m => h (List.mem_cons_of_mem _ m)
    simp [splitNl, hc, ih h2, consHead]

theorem splitNl_cons_newline (cs : List Char) :
    splitNl ('\n' :: cs) = ([] :: (splitNl cs).1, (splitNl cs).2) := by
  simp [splitNl]

theorem splitNl_cons_other (c : Char) (cs : List Char) (hc : c ≠ '\n') :
    splitNl (c :: cs) = consHead c (splitNl cs) := by
  simp [splitNl, hc]

theorem consHead_pair_nil (c : Char) (r : List Char) :
    consHead c (([] : List (List Char)), r) = ([], c :: r) := rfl

theorem consHead_pair_cons (c : Char) (l : List Char) (ls : List (List Char))
    (r : List Char) : consHead c (l :: ls, r) = ((c :: l) :: ls, r) := rfl

/-- Splitting a concatenation: the complete lines of `xs` come first, then
the lines obtained by continuing the leftover of `xs` into `ys`. -/
theorem splitNl_append (xs ys : List Char) :
    splitNl (xs ++ ys) =
      ((splitNl xs).1 ++ (splitNl ((splitNl xs).2 ++ ys)).1,
       (splitNl ((splitNl xs).2 ++ ys)).2) := by
  induction xs with
  | nil => simp [splitNl]
  | cons c cs ih =>
    by_cases hc : c = '\n'
    · subst hc
      rw [List.cons_append, splitNl_cons_newline, splitNl_cons_newline, ih]
      simp
    · rcases hA : splitNl cs with ⟨ls₁, r₁⟩
      rw [hA] at ih
      rcases hB : splitNl (r₁ ++ ys) with ⟨ls₂, r₂⟩
      rw [hB] at ih
      simp only at ih
      rw [List.cons_append, splitNl_cons_other c _ hc, splitNl_cons_other c _ hc,
        ih, hA]
      cases ls₁ with
      | nil =>
          simp only [consHead_pair_nil, List.nil_append, List.cons_append,
            splitNl_cons_other c _ hc, hB]
      | cons l ls =>
          simp only [consHead_pair_cons, List.cons_append, hB]

/-! ## Chunk composition lemmas -/

theorem processLines_append (parse : List Char → Option ParsedRecord) (now : Nat)
    (st : LineState) (l1 l2 : List (List Char)) :
    processLines parse now st (l1 ++ l2) =
      ((processLines parse now (processLines parse now st l1).1 l2).1,
       (processLines parse now st l1).2 ++
         (processLines parse now (processLines parse now st l1).1 l2).2) := by
  induction l1 generalizing st with
  | nil => simp [processLines]
  | cons l ls ih => simp [processLines, ih, List.append_assoc]

theorem processLine_finished (parse : List Char → Option ParsedRecord) (now : Nat)
    (st : LineState) (l : List Char) (h : st.finished = true) :
    processLine parse now st l = (st, []) := by
  simp [processLine, h]

theorem processLines_finished (parse : List Char → Option ParsedRecord) (now : Nat)
    (st : LineState) (ls : List (List Char)) (h : st.finished = true) :
    processLines parse now st ls = (st, []) := by
  induction ls with
  | nil => rfl
  | cons l ls ih => simp [processLines, processLine_finished parse now st l h, ih]

theorem runChunk_finished (parse : List Char → Option ParsedRecord) (now : Nat)
    (st : DecState) (c : List Char) (h : st.finished = true) :
    runChunk parse now st c = (st, []) := by
  simp [runChunk, h]

theorem runChunks_finished (parse : List Char → Option ParsedRecord) (now : Nat)
    (st : DecState) (cs : List (List Char)) (h : st.finished = true) :
    runChunks parse now st cs = (st, []) := by
  induction cs with
  | nil => rfl
  | cons c cs ih => simp [runChunks, runChunk_finished parse now st c h, ih]

/-- Feeding `a ++ b` as one chunk is the same as feeding `a` then `b`. -/
theorem runChunk_append (parse : List Char → Option ParsedRecord) (now : Nat)
    (st : DecState) (a b : List Char) :
    runChunk parse now st (a ++ b) =
      ((runChunk parse now (runChunk parse now st a).1 b).1,
       (runChunk parse now st a).2 ++
         (runChunk parse now (runChunk parse now st a).1 b).2) := by
  by_cases hf : st.finished
  · simp [runChunk, hf]
  · rcases hA : splitNl (st.buffer ++ a) with ⟨ls₁, r₁⟩
    rcases hB : splitNl (r₁ ++ b) with ⟨ls₂, r₂⟩
    have hsplit : splitNl (st.buffer ++ (a ++ b)) = (ls₁ ++ ls₂, r₂) := by
      rw [← List.append_assoc, splitNl_append, hA, hB]
    rcases hP1 : processLines parse now ⟨false, st.acc⟩ ls₁ with ⟨s1, e1⟩
    by_cases h1 : s1.finished
    · have hP2 := processLines_finished parse now s1 ls₂ h1
      have hRa : runChunk parse now st a =
          ({ finished := true, buffer := [], acc := s1.acc }, e1) := by
        simp [runChunk, hf, hA, hP1, h1]
      have hRab : runChunk parse now st (a ++ b) =
          ({ finished := true, buffer := [], acc := s1.acc }, e1) := by
        simp [runChunk, hf, hsplit, processLines_append, hP1, hP2, h1]
      rw [hRab, hRa, runChunk_finished parse now _ b rfl]
      simp
    · have hs1eta : (⟨false, s1.acc⟩ : LineState) = s1 := by
        cases s1
        simp_all
      rcases hP2 : processLines parse now s1 ls₂ with ⟨s2, e2⟩
      have hRa : runChunk parse now st a =
          ({ finished := false, buffer := r₁, acc := s1.acc }, e1) := by
        simp [runChunk, hf, hA, hP1, h1]
      have hRb : runChunk parse now
          ({ finished := false, buffer := r₁, acc := s1.acc } : DecState) b =
          (if s2.finished then { finished := true, buffer := [], acc := s2.acc }
           else { finished := false, buffer := r₂, acc := s2.acc }, e2) := by
        simp only [runChunk]
        rw [if_neg (by simp)]
        simp only [hB, hs1eta, hP2]
        by_cases h2 : s2.finished <;> simp [h2]
      have hRab : runChunk parse now st (a ++ b) =
          (if s2.finished then { finished := true, buffer := [], acc := s2.acc }
           else { finished := false, buffer := r₂, acc := s2.acc }, e1 ++ e2) := by
        simp only [runChunk]
        rw [if_neg hf]
        simp only [hsplit, processLines_append, hP1, hs1eta, hP2]
        by_cases h2 : s2.finished <;> simp [h2]
      rw [hRab, hRa, hRb]

/-- The buffer invariant: a live decoder state never holds a newline in its
line buffer. -/
theorem runChunk_buffer_no_newline (parse : List Char → Option ParsedRecord)
    (now : Nat) (st : DecState) (c : List Char)
    (hbuf : st.finished = false → '\n' ∉ st.buffer) :
    (runChunk parse now st c).1.finished = false →
      '\n' ∉ (runChunk parse now st c).1.buffer := by
  by_cases hf : st.finished
  · intro h
    simp only [runChunk, if_pos hf] at h ⊢
    exact hbuf h
  · simp only [runChunk]
    rw [if_neg hf]
    by_cases h1 :
        (processLines parse now ⟨false, st.acc⟩
          (splitNl (st.buffer ++ c)).1).1.finished
    · simp [h1]
    · rw [if_neg h1]
      intro _
      exact splitNl_no_newline_leftover (st.buffer ++ c)

/-- Feeding the chunks one by one is the same as feeding their
concatenation as a single chunk. -/
theorem runChunks_eq_join (parse : List Char → Option ParsedRecord) (now : Nat)
    (cs : List (List Char)) (st : DecState)
    (hbuf : st.finished = false → '\n' ∉ st.buffer) :
    runChunks parse now st cs = runChunk parse now st cs.flatten := by
  induction cs generalizing st with
  | nil =>
      by_cases hf : st.finished
      · simp [runChunks, runChunk_finished parse now st _ hf]
      · have h2 := splitNl_of_no_newline st.buffer (hbuf (by simpa using hf))
        simp only [runChunks, List.flatten_nil, runChunk]
        rw [if_neg hf]
        simp [List.append_nil, h2, processLines]
        cases st
        simp_all
  | cons c cs ih =>
      rw [List.flatten_cons, runChunk_append]
      rw [← ih _ (runChunk_buffer_no_newline parse now st c hbuf)]
      simp [runChunks]

/-- Chunk-boundary invariance, stated on the observable event stream. -/
theorem decodeStream_eq_single_chunk (parse : List Char → Option ParsedRecord)
    (now : Nat) (chunks : List (List Char)) :
    decodeStream parse now chunks = decodeStream parse now [chunks.flatten] := by
  unfold decodeStream
  rw [runChunks_eq_join parse now chunks initDecState (by simp [initDecState])]
  simp [runChunks]

/-! ## Record-stream encoding lemmas -/

theorem splitNl_line_newline (w : List Char) (h : '\n' ∉ w) :
    splitNl (w ++ ['\n']) = ([w], []) := by
  induction w with
  | nil => simp [splitNl]
  | cons c cs ih =>
      have hc : c ≠ '\n' := fun e => h (by simp [e])
      have h2 : '\n' ∉ cs := fun m => h (List.mem_cons_of_mem _ m)
      rw [List.cons_append, splitNl_cons_other c _ hc, ih h2, consHead_pair_cons]

theorem splitNl_encodeLines (ls : List (List Char)) (h : ∀ l ∈ ls, '\n' ∉ l) :
    splitNl (encodeLines ls) = (ls, []) := by
  induction ls with
  | nil => simp [encodeLines, splitNl]
  | cons l ls ih =>
      have h1 : '\n' ∉ l := h l (by simp)
      have h2 : ∀ x ∈ ls, '\n' ∉ x := fun x hx => h x (by simp [hx])
      have henc : encodeLines (l :: ls) = (l ++ ['\n']) ++ encodeLines ls := by
        simp [encodeLines]
      rw [henc, splitNl_append, splitNl_line_newline l h1]
      simp [ih h2]

/-- Decoding the single-chunk encoding of a record list is exactly the
line-level decode of those records. -/
theorem decodeStream_encodeLines (parse : List Char → Option ParsedRecord)
    (now : Nat) (ls : List (List Char)) (h : ∀ l ∈ ls, '\n' ∉ l) :
    decodeStream parse now [encodeLines ls] = decodeLines parse now ls := by
  unfold decodeStream decodeLines
  simp only [runChunks, runChunk, initDecState]
  rw [if_neg (by simp)]
  simp only [List.nil_append, splitNl_encodeLines ls h]
  by_cases hfin : (processLines parse now ⟨false, []⟩ ls).1.finished
  · simp [hfin]
  · rw [if_neg hfin]
    simp [hfin]

/-! ## Malformed records are dropped without a trace -/

/-- A `data:` line whose payload is not the end marker and fails to parse
leaves the state untouched and emits nothing (openai.ts lines 782-785). -/
theorem processLine_malformed (parse : List Char → Option ParsedRecord) (now : Nat)
    (st : LineState) (bad : List Char)
    (hdata : dataTag.isPrefixOf bad = true)
    (hdone : trimChars (bad.drop 6) ≠ doneTag)
    (hparse : parse (trimChars (bad.drop 6)) = none) :
    processLine parse now st bad = (st, []) := by
  by_cases hf : st.finished
  · simp [processLine, hf]
  · simp [processLine, hf, hdata, hdone, hparse]

/-- Dropping a malformed record from the record list does not change the
decoded event sequence. -/
theorem decodeLines_malformed (parse : List Char → Option ParsedRecord) (now : Nat)
    (ls1 ls2 : List (List Char)) (bad : List Char)
    (hdata : dataTag.isPrefixOf bad = true)
    (hdone : trimChars (bad.drop 6) ≠ doneTag)
    (hparse : parse (trimChars (bad.drop 6)) = none) :
    decodeLines parse now (ls1 ++ bad :: ls2) = decodeLines parse now (ls1 ++ ls2) := by
  unfold decodeLines
  rw [processLines_append, processLines_append]
  have hbad := processLine_malformed parse now
    (processLines parse now ⟨false, []⟩ ls1).1 bad hdata hdone hparse
  simp [processLines, hbad]

/-! ## Claim C2 -/

/-- Claim C2: for every well-formed event-record byte sequence and for every
way of splitting it into transport chunks at arbitrary boundaries, feeding
the chunks one by one to the stream decoder produces the identical ordered
sequence of emitted events (content chunks, accumulated tool calls,
completion) as decoding the whole sequence as a single chunk.  Stated for
every character sequence and every record interpretation `parse`. -/
theorem streamDecoder_chunking_invariant (parse : List Char → Option ParsedRecord)
    (now : Nat) (chunks : List (List Char)) :
    decodeStream parse now chunks = decodeStream parse now [chunks.flatten] :=
  decodeStream_eq_single_chunk parse now chunks

/-! ## Concrete record interpretation used by the concrete runs -/

/-- A concrete `parse` fixture: the payload `ok` is a content delta, `frag`
is a nameless tool-call fragment for index 0, `fragf` is a complete
tool-call fragment, `fin` carries `finish_reason = "tool_calls"`, and
everything else fails to parse. -/
def parseFixture : List Char → Option ParsedRecord := fun s =>
  if s = "ok".data then
    some { content := some "Hi", toolCallDeltas := none, finishReason := none }
  else if s = "frag".data then
    some { content := none
           toolCallDeltas := some
             [{ index := some 0, id := some "call_1", name := none,
                arguments := some "\x7b\x7d" }]
           finishReason := none }
  else if s = "fragf".data then
    some { content := none
           toolCallDeltas := some
             [{ index := some 0, id := some "call_2", name := some "g",
                arguments := some "\x7b\x7d" }]
           finishReason := none }
  else if s = "fin".data then
    some { content := none, toolCallDeltas := none,
           finishReason := some "tool_calls" }
  else none

/-! ## Claim C9 -/

/-- Claim C9: for every chunk sequence carrying a malformed event record (a
`data:` line whose payload is empty, non-JSON or otherwise unparsable), the
decoder emits no event for that record, does not abort the stream, and every
well-formed record before and after it still produces its events exactly as
if the malformed record were absent. -/
theorem streamDecoder_malformed_record_dropped
    (parse : List Char → Option ParsedRecord) (now : Nat)
    (chunks : List (List Char)) (ls1 ls2 : List (List Char)) (bad : List Char)
    (hjoin : chunks.flatten = encodeLines (ls1 ++ bad :: ls2))
    (hnl : ∀ l ∈ ls1 ++ bad :: ls2, '\n' ∉ l)
    (hdata : dataTag.isPrefixOf bad = true)
    (hdone : trimChars (bad.drop 6) ≠ doneTag)
    (hparse : parse (trimChars (bad.drop 6)) = none) :
    decodeStream parse now chunks =
      decodeStream parse now [encodeLines (ls1 ++ ls2)] := by
  have hnl2 : ∀ l ∈ ls1 ++ ls2, '\n' ∉ l := by
    intro l hl
    rcases List.mem_append.mp hl with h | h
    · exact hnl l (List.mem_append.mpr (Or.inl h))
    · exact hnl l (by simp [h])
  rw [decodeStream_eq_single_chunk, hjoin,
    decodeStream_encodeLines parse now _ hnl,
    decodeLines_malformed parse now ls1 ls2 bad hdata hdone hparse,
    ← decodeStream_encodeLines parse now _ hnl2]

/-- Witness for C9: a malformed record `data: notjson` inside a concretely
chunked stream (split mid-record) decodes to the same events as the stream
without it. -/
theorem streamDecoder_malformed_record_dropped_witness :
    decodeStream parseFixture 7 ["data:".data, " ok\ndata: notjson\n".data] =
      decodeStream parseFixture 7 [encodeLines ["data: ok".data]] :=
  streamDecoder_malformed_record_dropped parseFixture 7
    ["data:".data, " ok\ndata: notjson\n".data] ["data: ok".data] []
    "data: notjson".data
    (by decide) (by decide) (by decide) (by decide) (by decide)

/-! ## Claim C4 -/

/-- Every finalized call has a truthy name and truthy arguments: incomplete
records are filtered out. -/
theorem finalizeCalls_mem (now : Nat) (acc : List AccEntry) (tc : ToolCall)
    (h : tc ∈ finalizeCalls now acc) : tc.name ≠ "" ∧ tc.arguments ≠ "" := by
  unfold finalizeCalls at h
  rcases List.mem_map.mp h with ⟨e, he, rfl⟩
  have hp := (List.mem_filter.mp he).2
  simp only [Bool.and_eq_true, bne_iff_ne, ne_eq] at hp
  exact ⟨hp.1, hp.2⟩

/-- An event emitted for one parsed record is never a decode error, and a
tool-call event always carries a complete call. -/
theorem processParsed_events (now : Nat) (acc : List AccEntry) (p : ParsedRecord)
    (ev : SEvent) (h : ev ∈ (processParsed now acc p).2) :
    (∀ m, ev ≠ SEvent.error m) ∧
      (∀ tc, ev = SEvent.toolCall tc → tc.name ≠ "" ∧ tc.arguments ≠ "") := by
  unfold processParsed at h
  simp only at h
  rcases List.mem_append.mp h with h | h
  · rcases hc : p.content with _ | c
    · rw [hc] at h
      simp at h
    · rw [hc] at h
      by_cases he : c = ""
      · simp [he] at h
      · have h2 : ev ∈ [SEvent.content c] := by simpa [he] using h
        rcases List.mem_singleton.mp h2 with rfl
        exact ⟨fun m => by simp, fun tc hne => by simp at hne⟩
  · by_cases hfin : p.finishReason = some "tool_calls"
    · rw [if_pos hfin] at h
      rcases List.mem_map.mp h with ⟨tc, htc, rfl⟩
      refine ⟨fun m => by simp, fun tc2 heq => ?_⟩
      have heq2 : tc = tc2 := by simpa using heq
      exact heq2 ▸ finalizeCalls_mem now _ tc htc
    · rw [if_neg hfin] at h
      simp at h

/-- Same statement, lifted to one line. -/
theorem processLine_events (parse : List Char → Option ParsedRecord) (now : Nat)
    (st : LineState) (l : List Char) (ev : SEvent)
    (h : ev ∈ (processLine parse now st l).2) :
    (∀ m, ev ≠ SEvent.error m) ∧
      (∀ tc, ev = SEvent.toolCall tc → tc.name ≠ "" ∧ tc.arguments ≠ "") := by
  unfold processLine at h
  by_cases hf : st.finished
  · rw [if_pos hf] at h
    simp at h
  · rw [if_neg hf] at h
    by_cases hd : dataTag.isPrefixOf l
    · rw [if_pos hd] at h
      simp only at h
      by_cases hdone : trimChars (l.drop 6) = doneTag
      · rw [if_pos hdone] at h
        rcases List.mem_singleton.mp h with rfl
        exact ⟨fun m => by simp, fun tc hne => by simp at hne⟩
      · rw [if_neg hdone] at h
        rcases hp : parse (trimChars (l.drop 6)) with _ | p
        · rw [hp] at h
          simp at h
        · rw [hp] at h
          exact processParsed_events now st.acc p ev h
    · rw [if_neg hd] at h
      simp at h

/-- Same statement, lifted to a line list. -/
theorem processLines_events (parse : List Char → Option ParsedRecord) (now : Nat)
    (st : LineState) (ls : List (List Char)) (ev : SEvent)
    (h : ev ∈ (processLines parse now st ls).2) :
    (∀ m, ev ≠ SEvent.error m) ∧
      (∀ tc, ev = SEvent.toolCall tc → tc.name ≠ "" ∧ tc.arguments ≠ "") := by
  induction ls generalizing st with
  | nil => simp [processLines] at h
  | cons l ls ih =>
      simp only [processLines] at h
      rcases List.mem_append.mp h with h | h
      · exact processLine_events parse now st l ev h
      · exact ih _ h

/-- Claim C4 (amended): an accumulated tool call that at finalization is
missing a name or has empty (hence unparsable) arguments is excluded from
the finalized tool-call list **silently**: every emitted tool-call event
carries a non-empty name and non-empty arguments, and the decoder never
emits a decode-error event, so a caller cannot distinguish a turn with no
tool calls from a turn whose tool calls failed to decode. -/
theorem toolCall_decode_failures_silent (parse : List Char → Option ParsedRecord)
    (now : Nat) (ls : List (List Char)) :
    (∀ tc, SEvent.toolCall tc ∈ decodeLines parse now ls →
      tc.name ≠ "" ∧ tc.arguments ≠ "") ∧
    (∀ m, SEvent.error m ∉ decodeLines parse now ls) := by
  constructor
  · intro tc htc
    unfold decodeLines at htc
    rcases List.mem_append.mp htc with h | h
    · exact (processLines_events parse now _ ls _ h).2 tc rfl
    · rcases hfin : (processLines parse now ⟨false, []⟩ ls).1.finished
      · rw [hfin] at h
        simp at h
      · rw [hfin] at h
        simp at h
  · intro m hm
    unfold decodeLines at hm
    rcases List.mem_append.mp hm with h | h
    · exact (processLines_events parse now _ ls _ h).1 m rfl
    · rcases hfin : (processLines parse now ⟨false, []⟩ ls).1.finished
      · rw [hfin] at h
        simp at h
      · rw [hfin] at h
        simp at h

/-- Witness for the amended C4: on a concrete stream the emitted tool call
has non-empty name and arguments. -/
theorem toolCall_decode_failures_silent_witness :
    (SEvent.toolCall ⟨"call_2", "g", "\x7b\x7d"⟩ ∈
      decodeLines parseFixture 7 ["data: fragf".data, "data: fin".data]) ∧
    ("g" ≠ "" ∧ ("\x7b\x7d" : String) ≠ "") :=
  ⟨by decide,
   (toolCall_decode_failures_silent parseFixture 7
      ["data: fragf".data, "data: fin".data]).1
     ⟨"call_2", "g", "\x7b\x7d"⟩ (by decide)⟩

/-- Counterexample for C4 as stated: the record stream accumulates a
tool-call record for index 0 that is missing a name (`parseFixture` maps
`frag` to a nameless fragment), the turn finishes with
`finish_reason = "tool_calls"`, and yet the decoded event sequence is just
the completion event — the call is excluded from the finalized list without
any decode-error report on any callback channel. -/
theorem toolCall_missing_name_unreported_cex :
    (processLines parseFixture 7 ⟨false, []⟩ ["data: frag".data]).1.acc =
      [⟨0, some "call_1", "", "\x7b\x7d"⟩] ∧
    decodeLines parseFixture 7 ["data: frag".data, "data: fin".data] =
      [SEvent.complete] ∧
    (∀ m, SEvent.error m ∉
      decodeLines parseFixture 7 ["data: frag".data, "data: fin".data]) := by
  refine ⟨by decide, by decide, ?_⟩
  intro m hm
  rw [show decodeLines parseFixture 7 ["data: frag".data, "data: fin".data] =
    [SEvent.complete] from by decide] at hm
  simp at hm

/-! ## Claim C3 -/

/-- Spec-side description (§4.2): the concatenation, in arrival order, of the
`arguments` fragments supplied by a fragment sequence. -/
def specArgsConcat : List DeltaToolCall → String
  | [] => ""
  | d :: ds => d.arguments.getD "" ++ specArgsConcat ds

/-- Spec-side description (§4.2): the last truthy name supplied by a
fragment sequence (`""` when none is). -/
def specLastName : List DeltaToolCall → String
  | [] => ""
  | d :: ds => if specLastName ds = "" then d.name.getD "" else specLastName ds

theorem updEntry_idx (e : AccEntry) (d : DeltaToolCall) :
    (updEntry e d).idx = e.idx := rfl

theorem updEntry_id (e : AccEntry) (d : DeltaToolCall) :
    (updEntry e d).id = e.id := rfl

theorem updEntry_args (e : AccEntry) (d : DeltaToolCall) :
    (updEntry e d).args = e.args ++ d.arguments.getD "" := by
  rcases h : d.arguments with _ | a
  · simp [updEntry, h]
  · by_cases ha : a = "" <;> simp [updEntry, h, ha]

theorem updEntry_name (e : AccEntry) (d : DeltaToolCall) :
    (updEntry e d).name = if d.name.getD "" = "" then e.name else d.name.getD "" := by
  rcases h : d.name with _ | n
  · simp [updEntry, h]
  · by_cases hn : n = "" <;> simp [updEntry, h, hn]

/-- Folding further fragments over a single-entry accumulator keeps it a
single entry and just updates that entry, provided every fragment targets
its index. -/
theorem foldl_applyDelta_single (ds : List DeltaToolCall) (e : AccEntry)
    (hidx : ∀ d ∈ ds, effIndex d = e.idx) :
    ds.foldl applyDelta [e] = [ds.foldl updEntry e] := by
  induction ds generalizing e with
  | nil => rfl
  | cons d ds ih =>
      have hd : effIndex d = e.idx := hidx d (by simp)
      have hstep : applyDelta [e] d = [updEntry e d] := by
        simp [applyDelta, hd]
      rw [List.foldl_cons, hstep, List.foldl_cons]
      exact ih (updEntry e d) (fun d2 h2 => by
        rw [updEntry_idx]
        exact hidx d2 (by simp [h2]))

theorem foldl_updEntry_args (ds : List DeltaToolCall) (e : AccEntry) :
    (ds.foldl updEntry e).args = e.args ++ specArgsConcat ds := by
  induction ds generalizing e with
  | nil => simp [specArgsConcat]
  | cons d ds ih =>
      rw [List.foldl_cons, ih, updEntry_args, specArgsConcat,
        String.append_assoc]

theorem foldl_updEntry_name (ds : List DeltaToolCall) (e : AccEntry) :
    (ds.foldl updEntry e).name =
      if specLastName ds = "" then e.name else specLastName ds := by
  induction ds generalizing e with
  | nil => simp [specLastName]
  | cons d ds ih =>
      rw [List.foldl_cons, ih, updEntry_name, specLastName]
      by_cases h1 : specLastName ds = "" <;>
        by_cases h2 : d.name.getD "" = "" <;> simp [h1, h2]

theorem foldl_updEntry_idx (ds : List DeltaToolCall) (e : AccEntry) :
    (ds.foldl updEntry e).idx = e.idx := by
  induction ds generalizing e with
  | nil => rfl
  | cons d ds ih => rw [List.foldl_cons, ih, updEntry_idx]

theorem foldl_updEntry_id (ds : List DeltaToolCall) (e : AccEntry) :
    (ds.foldl updEntry e).id = e.id := by
  induction ds generalizing e with
  | nil => rfl
  | cons d ds ih => rw [List.foldl_cons, ih, updEntry_id]

theorem finalizeCalls_singleton (now : Nat) (e : AccEntry)
    (hn : e.name ≠ "") (ha : e.args ≠ "") :
    finalizeCalls now [e] =
      [⟨match e.id with
         | some i => if i = "" then genToolId now e.idx else i
         | none => genToolId now e.idx, e.name, e.args⟩] := by
  simp [finalizeCalls, hn, ha]

/-- Claim C3: for every sequence of tool-call fragments sharing index 0, the
accumulator holds exactly one record whose `arguments` is the concatenation
of the supplied fragments in arrival order (never overwritten) and whose
`name` is the last supplied truthy name; when name and arguments are both
non-empty, finalization yields exactly one `ToolCall` carrying them. -/
theorem toolCallAccumulator_concat (now : Nat) (ds : List DeltaToolCall)
    (hidx : ∀ d ∈ ds, effIndex d = 0) (hne : ds ≠ []) :
    ∃ e : AccEntry, ds.foldl applyDelta [] = [e] ∧ e.idx = 0 ∧
      e.args = specArgsConcat ds ∧ e.name = specLastName ds ∧
      (e.name ≠ "" → e.args ≠ "" →
        ∃ tid, finalizeCalls now (ds.foldl applyDelta []) =
          [⟨tid, specLastName ds, specArgsConcat ds⟩]) := by
  rcases ds with _ | ⟨d, ds⟩
  · exact absurd rfl hne
  · have hd : effIndex d = 0 := hidx d (by simp)
    have hbase : applyDelta [] d =
        [updEntry ⟨0, d.id, "", ""⟩ d] := by
      simp [applyDelta, hd]
    have hrest : ∀ d2 ∈ ds, effIndex d2 = (updEntry ⟨0, d.id, "", ""⟩ d).idx := by
      intro d2 h2
      rw [updEntry_idx]
      exact hidx d2 (by simp [h2])
    refine ⟨ds.foldl updEntry (updEntry ⟨0, d.id, "", ""⟩ d), ?_, ?_, ?_, ?_, ?_⟩
    · rw [List.foldl_cons, hbase, foldl_applyDelta_single ds _ hrest]
    · rw [foldl_updEntry_idx, updEntry_idx]
    · rw [foldl_updEntry_args, updEntry_args, specArgsConcat]
      simp [String.empty_append]
    · rw [foldl_updEntry_name, updEntry_name, specLastName]
      by_cases h1 : specLastName ds = "" <;>
        by_cases h2 : d.name.getD "" = "" <;> simp [h1, h2]
    · intro hn ha
      have hname : (ds.foldl updEntry (updEntry ⟨0, d.id, "", ""⟩ d)).name =
          specLastName (d :: ds) := by
        rw [foldl_updEntry_name, updEntry_name, specLastName]
        by_cases h1 : specLastName ds = "" <;>
          by_cases h2 : d.name.getD "" = "" <;> simp [h1, h2]
      have hargs : (ds.foldl updEntry (updEntry ⟨0, d.id, "", ""⟩ d)).args =
          specArgsConcat (d :: ds) := by
        rw [foldl_updEntry_args, updEntry_args, specArgsConcat]
        simp [String.empty_append]
      have hid : (ds.foldl updEntry (updEntry ⟨0, d.id, "", ""⟩ d)).id = d.id := by
        rw [foldl_updEntry_id, updEntry_id]
      have hidx0 : (ds.foldl updEntry (updEntry ⟨0, d.id, "", ""⟩ d)).idx = 0 := by
        rw [foldl_updEntry_idx, updEntry_idx]
      refine ⟨match d.id with
              | some i => if i = "" then genToolId now 0 else i
              | none => genToolId now 0, ?_⟩
      rw [List.foldl_cons, hbase, foldl_applyDelta_single ds _ hrest,
        finalizeCalls_singleton now _ hn ha, hname, hargs, hid, hidx0]

/-- The spec's first fragment: `{index: 0, name: "f"}`. -/
def fragName : DeltaToolCall :=
  { index := some 0, id := none, name := some "f", arguments := none }

/-- The spec's second fragment: `{index: 0, arguments: "\x7b\"a\":"}`. -/
def fragArgs1 : DeltaToolCall :=
  { index := some 0, id := none, name := none, arguments := some "\x7b\"a\":" }

/-- The spec's third fragment: `{index: 0, arguments: "1\x7d"}`. -/
def fragArgs2 : DeltaToolCall :=
  { index := some 0, id := none, name := none, arguments := some "1\x7d" }

/-- Witness for C3: on the spec's exact fragment sequence the accumulator
holds one record and finalization yields one `ToolCall` named `f` with
arguments `\x7b"a":1\x7d`. -/
theorem toolCallAccumulator_concat_witness :
    (specLastName [fragName, fragArgs1, fragArgs2] = "f") ∧
    (specArgsConcat [fragName, fragArgs1, fragArgs2] = "\x7b\"a\":1\x7d") ∧
    (∃ e : AccEntry,
      [fragName, fragArgs1, fragArgs2].foldl applyDelta [] = [e] ∧ e.idx = 0 ∧
      e.args = specArgsConcat [fragName, fragArgs1, fragArgs2] ∧
      e.name = specLastName [fragName, fragArgs1, fragArgs2] ∧
      (e.name ≠ "" → e.args ≠ "" →
        ∃ tid, finalizeCalls 7 ([fragName, fragArgs1, fragArgs2].foldl applyDelta []) =
          [⟨tid, specLastName [fragName, fragArgs1, fragArgs2],
            specArgsConcat [fragName, fragArgs1, fragArgs2]⟩])) :=
  ⟨by decide, by decide,
   toolCallAccumulator_concat 7 [fragName, fragArgs1, fragArgs2]
     (by decide) (by decide)⟩

/-! ## Claims C1, C5, C6 -/

theorem toolResultMessages_get? (now : Nat) (tools : List ExecutedTool) (i : Nat) :
    (toolResultMessages now tools).get? i = (tools.get? i).map (fun t =>
      { id := "tool-" ++ toString now ++ "-" ++ toString i
        role := Role.tool
        content := toolMessageContent t
        timestamp := now
        toolCalls := none
        toolCallId := some t.toolCall.id }) := by
  unfold toolResultMessages
  rw [List.get?_map, List.get?_enum]
  cases tools.get? i <;> rfl

theorem toolResultMessages_length (now : Nat) (tools : List ExecutedTool) :
    (toolResultMessages now tools).length = tools.length := by
  simp [toolResultMessages]

/-- Claim C1: for a round whose model turn emitted the tool calls recorded
in `executedTools` (one entry per `onToolCall` callback), the orchestrator
appends exactly one assistant message carrying those calls followed by
exactly one tool-role result message per call — each carrying that call's
`toolCallId` — and the continuation request is exactly the original message
list extended by those appended messages, for every settling outcome
(`complete`, `result`/`error` values are arbitrary). -/
theorem orchestrator_appends_one_assistant_and_n_tool_results
    (orig : List ChatMessage) (tools : List ExecutedTool) (aiId : String)
    (complete : Nat → Bool) (now : Nat) (hne : tools ≠ []) :
    ∃ round : ContinuationRound,
      handleToolExecutionComplete orig tools aiId complete now = some round ∧
      round.request = orig ++ round.appended ∧
      round.appended.length = 1 + tools.length ∧
      (∃ a, round.appended.head? = some a ∧ a.role = Role.assistant ∧
        a.toolCalls = some (tools.map (·.toolCall)) ∧ a.content = "" ∧
        a.id = aiId) ∧
      (∀ i, i < tools.length →
        ∃ mi t, round.appended.tail.get? i = some mi ∧ tools.get? i = some t ∧
          mi.role = Role.tool ∧ mi.toolCallId = some t.toolCall.id ∧
          mi.content = toolMessageContent t) := by
  have hlen : ¬tools.length = 0 := fun h => hne (List.length_eq_zero.mp h)
  refine ⟨{ appended := assistantToolCallMessage aiId now tools ::
              toolResultMessages now tools
            request := orig ++ assistantToolCallMessage aiId now tools ::
              toolResultMessages now tools
            waitAttempts := waitForToolResults complete maxAttempts 0 },
          ?_, ?_, ?_, ?_, ?_⟩
  · unfold handleToolExecutionComplete
    rw [if_neg hlen]
  · rfl
  · simp [toolResultMessages_length, Nat.add_comm]
  · exact ⟨assistantToolCallMessage aiId now tools, rfl, rfl, rfl, rfl, rfl⟩
  · intro i hi
    have hget : tools.get? i = some (tools.get ⟨i, hi⟩) := List.get?_eq_get hi
    have hmsg : (toolResultMessages now tools).get? i = some
        { id := "tool-" ++ toString now ++ "-" ++ toString i
          role := Role.tool
          content := toolMessageContent (tools.get ⟨i, hi⟩)
          timestamp := now
          toolCalls := none
          toolCallId := some (tools.get ⟨i, hi⟩).toolCall.id } := by
      rw [toolResultMessages_get?, hget]
      rfl
    exact ⟨_, tools.get ⟨i, hi⟩, hmsg, hget, rfl, rfl, rfl⟩

/-- A concrete executed-tool list: one success, one failure. -/
def sampleTools : List ExecutedTool :=
  [{ toolCall := ⟨"c1", "web_search", "\x7b\x7d"⟩, result := some ⟨true, "r1"⟩,
     error := none },
   { toolCall := ⟨"c2", "code_executor", "\x7b\x7d"⟩, result := none,
     error := some "boom" }]

/-- A completion check that never succeeds: a tool that never settles. -/
def neverComplete : Nat → Bool := fun _ => false

/-- Witness for C1: a concrete two-tool round. -/
theorem orchestrator_appends_witness :
    (sampleTools ≠ []) ∧
    (∃ round : ContinuationRound,
      handleToolExecutionComplete [] sampleTools "ai-1" neverComplete 5 =
        some round ∧
      round.request = [] ++ round.appended ∧
      round.appended.length = 1 + sampleTools.length ∧
      (∃ a, round.appended.head? = some a ∧ a.role = Role.assistant ∧
        a.toolCalls = some (sampleTools.map (·.toolCall)) ∧
        a.content = "" ∧ a.id = "ai-1") ∧
      (∀ i, i < sampleTools.length →
        ∃ mi t, round.appended.tail.get? i = some mi ∧
          sampleTools.get? i = some t ∧
          mi.role = Role.tool ∧ mi.toolCallId = some t.toolCall.id ∧
          mi.content = toolMessageContent t)) :=
  ⟨by decide,
   orchestrator_appends_one_assistant_and_n_tool_results [] sampleTools "ai-1"
     neverComplete 5 (by decide)⟩

theorem waitForToolResults_le (complete : Nat → Bool) (fuel a : Nat) :
    waitForToolResults complete fuel a ≤ a + fuel := by
  induction fuel generalizing a with
  | zero => simp [waitForToolResults]
  | succ fuel ih =>
      unfold waitForToolResults
      by_cases h : complete a
      · simp [h]
      · rw [if_neg h]
        calc waitForToolResults complete fuel (a + 1) ≤ (a + 1) + fuel := ih (a + 1)
          _ = a + (fuel + 1) := by omega

theorem waitForToolResults_never (complete : Nat → Bool)
    (h : ∀ t, complete t = false) (fuel a : Nat) :
    waitForToolResults complete fuel a = a + fuel := by
  induction fuel generalizing a with
  | zero => simp [waitForToolResults]
  | succ fuel ih =>
      unfold waitForToolResults
      rw [h a, if_neg (by simp)]
      rw [ih (a + 1)]
      omega

/-- Claim C5: the tool wait is a bounded poll — at most 50 polls of 100ms
(a 5-second ceiling); a never-settling tool exhausts exactly the 50 polls;
and for every settling behaviour the round still reaches the continuation
step (the continuation request is built with whatever results exist). -/
theorem orchestrator_bounded_wait (orig : List ChatMessage)
    (tools : List ExecutedTool) (aiId : String) (complete : Nat → Bool)
    (now : Nat) (hne : tools ≠ []) :
    waitForToolResults complete maxAttempts 0 ≤ maxAttempts ∧
    pollIntervalMs * waitForToolResults complete maxAttempts 0 ≤ 5000 ∧
    ((∀ t, complete t = false) →
      waitForToolResults complete maxAttempts 0 = maxAttempts) ∧
    ∃ round : ContinuationRound,
      handleToolExecutionComplete orig tools aiId complete now = some round ∧
      round.waitAttempts = waitForToolResults complete maxAttempts 0 ∧
      round.appended.length = 1 + tools.length := by
  have hle : waitForToolResults complete maxAttempts 0 ≤ maxAttempts := by
    simpa using waitForToolResults_le complete maxAttempts 0
  have hlen : ¬tools.length = 0 := fun h => hne (List.length_eq_zero.mp h)
  refine ⟨hle, ?_, ?_, ?_⟩
  · calc pollIntervalMs * waitForToolResults complete maxAttempts 0
        ≤ pollIntervalMs * maxAttempts := Nat.mul_le_mul_left _ hle
      _ = 5000 := by decide
  · intro h
    simpa using waitForToolResults_never complete h maxAttempts 0
  · refine ⟨{ appended := assistantToolCallMessage aiId now tools ::
                toolResultMessages now tools
              request := orig ++ assistantToolCallMessage aiId now tools ::
                toolResultMessages now tools
              waitAttempts := waitForToolResults complete maxAttempts 0 },
            ?_, rfl, ?_⟩
    · unfold handleToolExecutionComplete
      rw [if_neg hlen]
    · simp [toolResultMessages_length, Nat.add_comm]

/-- Witness for C5: with tools that never settle, the wait performs exactly
50 polls (5 seconds) and the round still reaches the continuation step. -/
theorem orchestrator_bounded_wait_witness :
    waitForToolResults neverComplete maxAttempts 0 ≤ maxAttempts ∧
    pollIntervalMs * waitForToolResults neverComplete maxAttempts 0 ≤ 5000 ∧
    ((∀ t, neverComplete t = false) →
      waitForToolResults neverComplete maxAttempts 0 = maxAttempts) ∧
    ∃ round : ContinuationRound,
      handleToolExecutionComplete [] sampleTools "ai-1" neverComplete 5 =
        some round ∧
      round.waitAttempts = waitForToolResults neverComplete maxAttempts 0 ∧
      round.appended.length = 1 + sampleTools.length :=
  orchestrator_bounded_wait [] sampleTools "ai-1" neverComplete 5 (by decide)

/-- Claim C6: the content of an appended tool-result message is exactly the
serialized tool payload on success, the formatted
`"Error executing <name>: <message>"` string on failure, and
`"No result available"` when the wait ceiling was hit with neither a result
nor an error.  (A successful execution in this code always delivers a truthy
payload object: every simulated tool returns an object literal.) -/
theorem tool_result_message_content (t : ExecutedTool) :
    (∀ v, t.error = none → t.result = some v → v.truthy = true →
      toolMessageContent t = v.serialized) ∧
    (∀ m, t.error = some m → m ≠ "" →
      toolMessageContent t =
        "Error executing " ++ t.toolCall.name ++ ": " ++ m) ∧
    (t.error = none → t.result = none →
      toolMessageContent t = "No result available") := by
  refine ⟨?_, ?_, ?_⟩
  · intro v he hr hv
    simp [toolMessageContent, errTruthy, resultContent, he, hr, hv]
  · intro m he hm
    simp [toolMessageContent, errTruthy, he, hm]
  · intro he hr
    simp [toolMessageContent, errTruthy, resultContent, he, hr]

/-- Witness for C6: all three content shapes at concrete executed tools. -/
theorem tool_result_message_content_witness :
    toolMessageContent ⟨⟨"c1", "web_search", "\x7b\x7d"⟩, some ⟨true, "\x7b\"results\":[]\x7d"⟩, none⟩ =
      "\x7b\"results\":[]\x7d" ∧
    toolMessageContent ⟨⟨"c2", "code_executor", "\x7b\x7d"⟩, none, some "boom"⟩ =
      "Error executing code_executor: boom" ∧
    toolMessageContent ⟨⟨"c3", "file_analyzer", "\x7b\x7d"⟩, none, none⟩ =
      "No result available" :=
  ⟨(tool_result_message_content
      ⟨⟨"c1", "web_search", "\x7b\x7d"⟩, some ⟨true, "\x7b\"results\":[]\x7d"⟩, none⟩).1
     ⟨true, "\x7b\"results\":[]\x7d"⟩ rfl rfl rfl,
   by
     have h := (tool_result_message_content
       ⟨⟨"c2", "code_executor", "\x7b\x7d"⟩, none, some "boom"⟩).2.1 "boom" rfl (by decide)
     simpa using h,
   (tool_result_message_content
      ⟨⟨"c3", "file_analyzer", "\x7b\x7d"⟩, none, none⟩).2.2 rfl rfl⟩

/-! ## Claims C7 and C8 -/

/-- Claim C7: if the `initialize` response lacks a session identifier or a
negotiated protocol version (absent header or falsy value), the handshake
fails hard with the `Missing session headers` error, no session value is
stored, and the client remains disconnected — neither field is defaulted
(mcpClient.ts lines 410-426). -/
theorem mcp_initialize_missing_headers (resp : InitResponse) (r : InitResult)
    (hres : resp.result = some r)
    (hmiss : strTruthy (resp.headers.bind (·.mcpSessionId)) = false ∨
      strTruthy (resp.headers.bind (·.mcpProtocolVersion)) = false) :
    initializeHandshake none resp =
      (none, Except.error "Initialize failed: Missing session headers") ∧
    (∀ sseOpen, isConnected (initializeHandshake none resp).1 sseOpen = false) := by
  have hcond : (strTruthy (resp.headers.bind (·.mcpSessionId)) &&
      strTruthy (resp.headers.bind (·.mcpProtocolVersion))) = false := by
    rcases hmiss with h | h <;> simp [h]
  have hmain : initializeHandshake none resp =
      (none, Except.error "Initialize failed: Missing session headers") := by
    unfold initializeHandshake
    rw [hres]
    simp [hcond]
  exact ⟨hmain, fun sseOpen => by rw [hmain]; simp [isConnected]⟩

/-- An `initialize` response whose body parsed but whose headers are absent. -/
def respNoHeaders : InitResponse :=
  { result := some { protocolVersion := some "2024-11-05", capabilities := none,
                     serverInfo := none }
    headers := none }

/-- Witness for C7: on a concrete header-less response the handshake errors
and the client stays disconnected. -/
theorem mcp_initialize_missing_headers_witness :
    initializeHandshake none respNoHeaders =
      (none, Except.error "Initialize failed: Missing session headers") ∧
    (∀ sseOpen, isConnected (initializeHandshake none respNoHeaders).1 sseOpen = false) :=
  mcp_initialize_missing_headers respNoHeaders
    { protocolVersion := some "2024-11-05", capabilities := none,
      serverInfo := none }
    rfl (Or.inl (by decide))

/-- Claim C8: in the revision at mcpClient.ts lines 69-153, after a
successful handshake a failure or timeout while opening the notification
channel is non-fatal: `initialize` still resolves with the session, the
session is stored, the correlation headers of later synchronous requests are
identical to those of a session whose channel did open, and the only
degradation is that progress notifications are never dispatched. -/
theorem mcp_sse_failure_nonfatal (resp : InitResponse) (r : InitResult)
    (genSessionId : String) (sse : SSEOutcome)
    (tr : Option (List MCPToolDef)) (apiKey : Option String)
    (hres : resp.result = some r) :
    (∃ s, (initializeRev0 resp genSessionId sse (Except.ok tr)).2 = Except.ok s ∧
      (initializeRev0 resp genSessionId sse (Except.ok tr)).1.session = some s) ∧
    requestHeaders (initializeRev0 resp genSessionId sse (Except.ok tr)).1.session
        apiKey =
      requestHeaders
        (initializeRev0 resp genSessionId SSEOutcome.opened (Except.ok tr)).1.session
        apiKey ∧
    (sse ≠ SSEOutcome.opened →
      ∀ cbs tok,
        deliverNotification (initializeRev0 resp genSessionId sse (Except.ok tr)).1
          cbs tok = none) := by
  cases sse <;>
    simp [initializeRev0, hres, startSSEConnectionRev0, deliverNotification]

/-- A complete, well-formed `initialize` response. -/
def respGood : InitResponse :=
  { result := some { protocolVersion := some "2024-11-05", capabilities := none,
                     serverInfo := some ⟨"srv", "1.0"⟩ }
    headers := some { mcpSessionId := some "sess-1",
                      mcpProtocolVersion := some "2024-11-05" } }

/-- Witness for C8: a concretely timed-out notification channel still yields
a completed `initialize` with a stored, usable session. -/
theorem mcp_sse_failure_nonfatal_witness :
    (∃ s, (initializeRev0 respGood "gen-1" SSEOutcome.timedOut
        (Except.ok (some []))).2 = Except.ok s ∧
      (initializeRev0 respGood "gen-1" SSEOutcome.timedOut
        (Except.ok (some []))).1.session = some s) ∧
    requestHeaders (initializeRev0 respGood "gen-1" SSEOutcome.timedOut
        (Except.ok (some []))).1.session (some "key") =
      requestHeaders (initializeRev0 respGood "gen-1" SSEOutcome.opened
        (Except.ok (some []))).1.session (some "key") ∧
    (SSEOutcome.timedOut ≠ SSEOutcome.opened →
      ∀ cbs tok,
        deliverNotification (initializeRev0 respGood "gen-1" SSEOutcome.timedOut
          (Except.ok (some []))).1 cbs tok = none) :=
  mcp_sse_failure_nonfatal respGood
    { protocolVersion := some "2024-11-05", capabilities := none,
      serverInfo := some ⟨"srv", "1.0"⟩ }
    "gen-1" SSEOutcome.timedOut (some []) (some "key") rfl

/-! ## Claim C10 -/

theorem updateFirst_none (p : α → Bool) (f : α → α) (l : List α)
    (h : ∀ x ∈ l, p x = false) : updateFirst p f l = none := by
  induction l with
  | nil => rfl
  | cons x xs ih =>
      unfold updateFirst
      rw [h x (by simp), if_neg (by simp)]
      rw [ih (fun y hy => h y (by simp [hy]))]
      rfl

/-- Claim C10: calling `addMessageToThread` or `updateThread` with a thread
id that does not exist in the given section leaves the persisted thread
store completely unchanged and performs no write. -/
theorem threadStore_missing_thread_no_write (store : ThreadStore)
    (sec : ChatSection) (threadId : String) (message : ChatMessage)
    (updates : ThreadPatch) (now1 now2 : Nat)
    (h : ∀ t ∈ getSection store sec, t.id ≠ threadId) :
    addMessageToThread store sec threadId message now1 = (store, false) ∧
    updateThread store sec threadId updates now2 = (store, false) := by
  have hfalse : ∀ t ∈ getSection store sec, (t.id == threadId) = false := by
    intro t ht
    exact beq_eq_false_iff_ne.mpr (h t ht)
  constructor
  · unfold addMessageToThread
    rw [updateFirst_none _ _ _ hfalse]
  · unfold updateThread
    rw [updateFirst_none _ _ _ hfalse]

/-- A concrete one-thread store. -/
def sampleStore : ThreadStore :=
  { steam := [{ id := "t1", name := "New Chat", messages := [],
                createdAt := 1, updatedAt := 1 }]
    source2 := [] }

/-- A concrete user message. -/
def sampleMessage : ChatMessage :=
  { id := "m1", role := Role.user, content := "hello", timestamp := 2,
    toolCalls := none, toolCallId := none }

/-- Witness for C10: a lookup of the unknown id `t2` writes nothing. -/
theorem threadStore_missing_thread_no_write_witness :
    addMessageToThread sampleStore ChatSection.steam "t2" sampleMessage 3 =
      (sampleStore, false) ∧
    updateThread sampleStore ChatSection.steam "t2"
      ⟨none, some "renamed", none, none, none⟩ 4 = (sampleStore, false) :=
  threadStore_missing_thread_no_write sampleStore ChatSection.steam "t2"
    sampleMessage ⟨none, some "renamed", none, none, none⟩ 3 4 (by decide)
